import Mathlib

/-!
Verification of the MidiProcessing repository (preprocess.py, write_midi.py).

The two Python modules are shallowly embedded below.  Python floats are
modelled as rationals, numpy arrays as nested lists, and the pretty_midi /
pypianoroll libraries as explicit data structures.  A call that can raise an
exception is modelled with Option.  All definitions are executable so that
claims can be checked on concrete inputs.
-/

/-- Python list.pop(i): remove the element at index i (identity when the index
is out of range; the sources only pop in-range indices). -/
def pyPop {α : Type} (l : List α) (i : ℕ) : List α :=
  l.take i ++ l.drop (i + 1)

/-- Repeatedly pop at the fixed index j, m times; this models the Python loop
for each element of t doing temp.pop(t[0]). -/
def popN {α : Type} (j : ℕ) : ℕ → List α → List α
  | 0, l => l
  | m + 1, l => popN j m (pyPop l j)

/-- Fuel-driven chunking of a list into consecutive blocks of n elements.
With fuel at least the list length and 0 < n it partitions the list; this
models numpy reshape(-1, n, ...) along the leading axis. -/
def chunksAux {α : Type} (n : ℕ) : ℕ → List α → List (List α)
  | 0, _ => []
  | _, [] => []
  | fuel + 1, a :: l => ((a :: l).take n) :: chunksAux n fuel ((a :: l).drop n)

/-- Chunk a list into consecutive blocks of n elements. -/
def chunks {α : Type} (n : ℕ) (l : List α) : List (List α) :=
  chunksAux n l.length l

/-- np.diff along the leading axis: d i = l (i+1) - l i. -/
def diffList (l : List ℤ) : List ℤ :=
  l.zipWith (fun a b => b - a) l.tail

/-- Insert a into an ascending list, after every element b with le b a.
Processing a list left to right with this insertion is a stable sort, the
behaviour of Python's list.sort. -/
def insertR {α : Type} (le : α → α → Bool) (a : α) : List α → List α
  | [] => [a]
  | b :: l => if le b a then b :: insertR le a l else a :: b :: l

/-- Stable insertion sort modelling Python list.sort / sorted. -/
def stableSort {α : Type} (le : α → α → Bool) (l : List α) : List α :=
  l.foldl (fun acc a => insertR le a acc) []

namespace WriteMidi

/-- pretty_midi.Note: velocity, pitch, start time and end time (the end-time
field is called stop because end is reserved in Lean). -/
structure Note where
  velocity : ℤ
  pitch : ℕ
  start : ℚ
  stop : ℚ
deriving DecidableEq, Inhabited

/-- Python int(x): truncation toward zero. -/
def truncInt (q : ℚ) : ℤ :=
  if 0 ≤ q then q.floor else q.ceil

/-- One cell of (piano_roll * 128).astype(int) followed by np.clip(_, 0, 127). -/
def scaleCell (q : ℚ) : ℤ :=
  min 127 (max 0 (truncInt (q * 128)))

/-- The scaled integer matrix used by set_piano_roll_to_instrument: the input
tensor flattened over its first two axes, then scaled to 0..127. -/
def scaledRoll (piano_roll : List (List (List ℚ))) : List (List ℤ) :=
  piano_roll.flatten.map fun row => row.map scaleCell

/-- Column of the scaled matrix for one pitch. -/
def noteColumn (M : List (List ℤ)) (note_num : ℕ) : List ℤ :=
  M.map fun row => row.getD note_num 0

/-- piano_roll_search for one pitch: the first difference of the column padded
with one zero row before and after. -/
def pianoRollSearch (col : List ℤ) : List ℤ :=
  diffList ((0 :: col) ++ [0])

/-- Indices where the padded difference is positive: note onsets. -/
def onsetIdx (col : List ℤ) : List ℕ :=
  (List.range (pianoRollSearch col).length).filter fun i =>
    decide (0 < (pianoRollSearch col).getD i 0)

/-- Indices where the padded difference is negative: note offsets. -/
def offsetIdx (col : List ℤ) : List ℕ :=
  (List.range (pianoRollSearch col).length).filter fun i =>
    decide ((pianoRollSearch col).getD i 0 < 0)

/-- start_time list for one pitch: onset indices times tpp. -/
def detectedStartTimes (M : List (List ℤ)) (tpp : ℚ) (note_num : ℕ) : List ℚ :=
  (onsetIdx (noteColumn M note_num)).map fun i => tpp * (i : ℚ)

/-- end_time list for one pitch: offset indices times tpp. -/
def detectedEndTimes (M : List (List ℤ)) (tpp : ℚ) (note_num : ℕ) : List ℚ :=
  (offsetIdx (noteColumn M note_num)).map fun i => tpp * (i : ℚ)

/-- One iteration of the de-duplication loop of set_piano_roll_to_instrument
(write_midi.py lines 63-77): if the i-th original onset is still present and
is not the last one, collect the indices of all later entries whose start is
below start_time i + threshold and whose end is at most that bound, then pop
the first collected index once per collected index. -/
def dedupStep (threshold : ℚ) (s0 : List ℚ) (st : List ℚ × List ℚ) (i : ℕ) :
    List ℚ × List ℚ :=
  let ts := st.1
  let te := st.2
  let si := s0.getD i 0
  if si ∈ ts ∧ i ≠ s0.length - 1 then
    let c := ts.indexOf si
    let t := (List.range ts.length).filter fun j =>
      decide (c + 1 ≤ j) && decide (ts.getD j 0 < si + threshold)
        && decide (te.getD j 0 ≤ si + threshold)
    (popN (t.headD 0) t.length ts, popN (t.headD 0) t.length te)
  else st

/-- The full de-duplication scan over the detected onset/offset lists. -/
def dedup (threshold : ℚ) (s e : List ℚ) : List ℚ × List ℚ :=
  (List.range s.length).foldl (dedupStep threshold s) (s, e)

/-- Onset/offset lists for one pitch after the de-duplication scan. -/
def survivedTimes (M : List (List ℤ)) (tpp threshold : ℚ) (note_num : ℕ) :
    List ℚ × List ℚ :=
  dedup threshold (detectedStartTimes M tpp note_num) (detectedEndTimes M tpp note_num)

/-- The notes emitted for one pitch by set_piano_roll_to_instrument: surviving
onsets (truncated when offsets are fewer), each paired with its zip duration;
durations at least threshold keep the detected end, shorter ones are extended
to threshold or clipped at phrase_end_time. -/
def notesForPitch (M : List (List ℤ)) (tpp threshold phrase_end_time : ℚ)
    (note_num : ℕ) : List Note :=
  let start_idx := onsetIdx (noteColumn M note_num)
  let p := survivedTimes M tpp threshold note_num
  let start_time := p.1
  let end_time := p.2
  let duration := (start_time.zip end_time).map fun q => q.2 - q.1
  let start_time :=
    if end_time.length < start_time.length then
      let d := start_time.length - end_time.length
      start_time.take (start_time.length - d)
    else start_time
  (List.range start_time.length).map fun idx =>
    let v := (M.getD (start_idx.getD idx 0) []).getD note_num 0
    let s := start_time.getD idx 0
    if duration.getD idx 0 ≥ threshold then
      { velocity := v, pitch := note_num, start := s, stop := end_time.getD idx 0 }
    else if s + threshold ≤ phrase_end_time then
      { velocity := v, pitch := note_num, start := s, stop := s + threshold }
    else
      { velocity := v, pitch := note_num, start := s, stop := phrase_end_time }

/-- write_midi.set_piano_roll_to_instrument: the list of notes appended to the
instrument, sorted by start time.  The velocity parameter of the source is
accepted but, as in the source, every emitted velocity is overwritten from the
scaled roll before use. -/
def set_piano_roll_to_instrument (piano_roll : List (List (List ℚ)))
    (velocity : ℤ) (tempo beat_resolution : ℚ) : List Note :=
  let tpp := 60 / tempo / beat_resolution
  let threshold := 60 / tempo / 4
  let phrase_end_time := 60 / tempo * 4 * (piano_roll.length : ℚ)
  let M := scaledRoll piano_roll
  let notes := (List.range 128).foldl
    (fun acc note_num => acc ++ notesForPitch M tpp threshold phrase_end_time note_num)
    []
  stableSort (fun a b => decide (a.start ≤ b.start)) notes

/-- write_midi.write_piano_rolls_to_midi: none models returning False with no
file written; some gives the written MIDI content as a list of
(program number, drum flag, note list) instruments. -/
def write_piano_rolls_to_midi (piano_rolls : List (List (List (List ℚ))))
    (program_nums : List ℕ) (is_drum : List Bool) (velocity : ℤ)
    (tempo beat_resolution : ℚ) : Option (List (ℕ × Bool × List Note)) :=
  if piano_rolls.length ≠ program_nums.length ∨ piano_rolls.length ≠ is_drum.length then
    none
  else
    let program_nums := if program_nums.isEmpty then [0, 0, 0] else program_nums
    let is_drum := if is_drum.isEmpty then [false, false, false] else is_drum
    some ((List.range piano_rolls.length).map fun idx =>
      (program_nums.getD idx 0, is_drum.getD idx false,
        set_piano_roll_to_instrument (piano_rolls.getD idx []) velocity tempo beat_resolution))

/-- write_midi.save_midis: pad the pitch axis from 84 to 128 (24 below, 20
above), regroup the time axis into segments of 64, split off each track
channel, and write all channels with beat_resolution 4. -/
def save_midis (bars : List (List (List (List ℚ)))) (programs : List ℕ)
    (tempo : ℚ) : Option (List (ℕ × Bool × List Note)) :=
  let tracks := (((bars.headD []).headD []).headD []).length
  let padded_bars := bars.map fun seg => seg.map fun row =>
    (List.replicate 24 (List.replicate tracks (0 : ℚ))) ++ row
      ++ (List.replicate 20 (List.replicate tracks (0 : ℚ)))
  let images_with_pause := chunks 64 padded_bars.flatten
  let images_with_pause_list := (List.range tracks).map fun ch =>
    images_with_pause.map fun seg => seg.map fun row => row.map fun cell => cell.getD ch 0
  write_piano_rolls_to_midi images_with_pause_list programs
    (programs.map fun _ => false) 100 tempo 4

/-- The suppression window test of the scan: pair q falls in the window
anchored at onset time s when q.start is strictly below s + threshold and
q.end is at most s + threshold. -/
def windowBool (threshold s : ℚ) (q : ℚ × ℚ) : Bool :=
  decide (q.1 < s + threshold) && decide (q.2 ≤ s + threshold)

/-- A pair survives the windows anchored at all onsets of A. -/
def survivesBool (threshold : ℚ) (A : List (ℚ × ℚ)) (q : ℚ × ℚ) : Bool :=
  A.all fun a => !(windowBool threshold a.1 q)

/-- Fueled greedy de-duplication: keep the head pair, drop every later pair
in the head's window, and recurse on what is left. -/
def greedyAux (threshold : ℚ) : ℕ → List (ℚ × ℚ) → List (ℚ × ℚ)
  | 0, _ => []
  | _, [] => []
  | fuel + 1, p :: rest =>
    p :: greedyAux threshold fuel (rest.filter fun q => !(windowBool threshold p.1 q))

/-- Greedy survivor-anchored de-duplication of onset/offset pairs; the clean
functional description of the scan in write_midi.py lines 63-77. -/
def greedyDedup (threshold : ℚ) (l : List (ℚ × ℚ)) : List (ℚ × ℚ) :=
  greedyAux threshold l.length l

/-- A 128-wide pixel row with value v at pitch 0. -/
def c1Row (v : ℚ) : List ℚ :=
  v :: List.replicate 127 (0 : ℚ)

/-- Concrete input for claim C1: one phrase of six time steps whose pitch-0
column is 1,0,1,0,0,1, giving three detected notes at pixels 0, 2 and 5. -/
def c1Roll : List (List (List ℚ)) :=
  [[c1Row 1, c1Row 0, c1Row 1, c1Row 0, c1Row 0, c1Row 1]]

/-- An 84-pitch, 1-track row for claim C2 with value v at pitch index 20
(MIDI pitch 44 after the 24-semitone padding). -/
def c2Row (v : ℚ) : List (List ℚ) :=
  (List.replicate 84 [(0 : ℚ)]).set 20 [v]

/-- Concrete input for claim C2: one 64-step segment, all zero except MIDI
pitch 44 at time steps 20..23 with intensities 100/128, 60/128, 30/128,
80/128.  The rising step at pixel 23 yields an extra onset whose zip-paired
offset lies before it. -/
def c2Bars : List (List (List (List ℚ))) :=
  [((((List.replicate 64 (List.replicate 84 [(0 : ℚ)])).set 20 (c2Row (100/128))).set 21
      (c2Row (60/128))).set 22 (c2Row (30/128))).set 23 (c2Row (80/128))]

/-- The single track channel that save_midis extracts from c2Bars: the pitch
axis padded from 84 to 128 and the (only) track channel selected. -/
def c2Channel : List (List (List ℚ)) :=
  (chunks 64 (c2Bars.map fun seg => seg.map fun row =>
      (List.replicate 24 (List.replicate 1 (0 : ℚ))) ++ row
        ++ (List.replicate 20 (List.replicate 1 (0 : ℚ)))).flatten).map
    fun seg => seg.map fun row => row.map fun cell => cell.getD 0 0

end WriteMidi

namespace Preprocess

/-- pretty_midi.TimeSignature: numerator, denominator and event time. -/
structure TimeSignature where
  numerator : ℕ
  denominator : ℕ
  time : ℚ
deriving DecidableEq

instance : Inhabited TimeSignature := ⟨⟨4, 4, 0⟩⟩

/-- The parts of a parsed pretty_midi.PrettyMIDI object that isSuitable
inspects.  estimate_beat_start is none when the library call would raise. -/
structure PrettyMIDI where
  time_signature_changes : List TimeSignature
  estimate_beat_start : Option ℚ
  tempo_change_times : List ℚ
  tempi : List ℚ
  note_velocities : List ℕ
deriving DecidableEq

/-- The dictionary built by isSuitable._get_midi_info. -/
structure MidiInfo where
  first_beat_time : ℚ
  num_time_signature_change : ℕ
  time_signature : Option String
  tempo : Option ℚ
  velocities : ℕ
deriving DecidableEq

/-- preprocess.isSuitable._get_midi_info; none models the analysis raising
(the only modelled failure is estimate_beat_start raising). -/
def get_midi_info (pm : PrettyMIDI) : Option MidiInfo :=
  let sorted := stableSort (fun a b => decide (a.time ≤ b.time)) pm.time_signature_changes
  let fbt : Option ℚ :=
    if pm.time_signature_changes.isEmpty then pm.estimate_beat_start
    else some (sorted.headD default).time
  match fbt with
  | none => none
  | some first_beat_time =>
    some { first_beat_time := first_beat_time
           num_time_signature_change := pm.time_signature_changes.length
           time_signature :=
             if pm.time_signature_changes.length = 1 then
               some (toString (sorted.headD default).numerator ++ "/"
                 ++ toString (sorted.headD default).denominator)
             else none
           tempo :=
             if pm.tempo_change_times.length = 1 then some (pm.tempi.headD 0) else none
           velocities := pm.note_velocities.dedup.length }

/-- preprocess.isSuitable on the parse result of a file (none = the parse
raised). -/
def isSuitable (parsed : Option PrettyMIDI) : Bool :=
  match parsed with
  | none => false
  | some pm =>
    match get_midi_info pm with
    | none => false
    | some midi_info =>
      if midi_info.first_beat_time > 0 then false
      else if midi_info.num_time_signature_change > 1 then false
      else if midi_info.time_signature ∉ [some ("4/4")] then false
      else true

/-- pypianoroll.Track as used by Converter: a piano-roll (time x 128), the
program number, the drum flag and a display name.  A None piano-roll is the
empty list. -/
structure PTrack where
  pianoroll : List (List ℕ)
  program : ℕ
  is_drum : Bool
  name : String
deriving DecidableEq

instance : Inhabited PTrack := ⟨⟨[], 0, false, ""⟩⟩

/-- The category_list dictionary of Converter._merge, with its four fixed keys
Piano, Guitar, Bass, Strings in insertion order. -/
structure CategoryList where
  piano : List ℕ
  guitar : List ℕ
  bass : List ℕ
  strings : List ℕ
deriving DecidableEq

/-- One iteration of the bucketing loop of Converter._merge: drum tracks are
skipped, others are appended to the bucket of program // 8 (0 piano, 3 guitar,
4 bass, 5 strings, anything else strings). -/
def addTrack (cl : CategoryList) (idx : ℕ) (track : PTrack) : CategoryList :=
  if track.is_drum then cl
  else if track.program / 8 = 0 then { cl with piano := cl.piano ++ [idx] }
  else if track.program / 8 = 3 then { cl with guitar := cl.guitar ++ [idx] }
  else if track.program / 8 = 4 then { cl with bass := cl.bass ++ [idx] }
  else if track.program / 8 = 5 then { cl with strings := cl.strings ++ [idx] }
  else { cl with strings := cl.strings ++ [idx] }

/-- The bucketing loop of Converter._merge over the enumerated track list. -/
def categoryList (tracks : List PTrack) : CategoryList :=
  tracks.enum.foldl (fun cl p => addTrack cl p.1 p.2) ⟨[], [], [], []⟩

/-- Modelled from the spec: pypianoroll Multitrack.get_merged_pianoroll, an
external library call not part of this repository, merges the stacked
piano-rolls by element-wise maximum (spec section 4.2). -/
def get_merged_pianoroll (rolls : List (List (List ℕ))) : List (List ℕ) :=
  match rolls with
  | [] => []
  | r :: rs => rs.foldl (fun acc b => acc.zipWith (fun ra rb => ra.zipWith max rb) b) r

/-- One output track of Converter._merge: the element-wise-maximum merge of
the bucket's tracks, or a Track with a None (empty) piano-roll when the bucket
is empty. -/
def mkMergedTrack (tracks : List PTrack) (index_list : List ℕ) (name : String)
    (program : ℕ) : PTrack :=
  if ¬ index_list.isEmpty then
    { pianoroll := get_merged_pianoroll (index_list.map fun i => (tracks.getD i default).pianoroll)
      program := program, is_drum := false, name := name }
  else
    { pianoroll := [], program := program, is_drum := false, name := name }

/-- Converter._merge: the four output tracks, in the dictionary's fixed key
order, with the Instrument enum programs Piano 0, Guitar 24, Bass 32,
Strings 48. -/
def Converter.merge (tracks : List PTrack) : List PTrack :=
  let cl := categoryList tracks
  [mkMergedTrack tracks cl.piano ("Piano") 0,
   mkMergedTrack tracks cl.guitar ("Guitar") 24,
   mkMergedTrack tracks cl.bass ("Bass") 32,
   mkMergedTrack tracks cl.strings ("Strings") 48]

/-- Whether a source track belongs to canonical bucket k (0 Piano, 1 Guitar,
2 Bass, 3 Strings): the independent restatement of the bucketing rule used to
check the fold in Converter._merge. -/
def inBucket (k : ℕ) (t : PTrack) : Bool :=
  !t.is_drum &&
    (match k with
     | 0 => decide (t.program / 8 = 0)
     | 1 => decide (t.program / 8 = 3)
     | 2 => decide (t.program / 8 = 4)
     | _ => decide (t.program / 8 ≠ 0 ∧ t.program / 8 ≠ 3 ∧ t.program / 8 ≠ 4))

/-- Source-track indices mapped to canonical bucket k, in input order. -/
def bucketIndices (k : ℕ) (tracks : List PTrack) : List ℕ :=
  (tracks.enum.filter fun p => inBucket k p.2).map Prod.fst

def Converter.beat_resolution : ℕ := 4

def Converter.base_note : ℕ := 4

def Converter.bars : ℕ := 4

def Splitter.pitch_beg : ℕ := 24

def Splitter.pitch_end : ℕ := 108

/-- Splitter.input_len = beat_resolution * base_note * bars = 64. -/
def Splitter.input_len : ℕ :=
  Converter.beat_resolution * Converter.base_note * Converter.bars

/-- Splitter._clampPitch: slice the pitch axis to [24, 108). -/
def Splitter.clampPitch (pianoroll : List (List (List ℚ))) : List (List (List ℚ)) :=
  pianoroll.map fun row => (row.drop Splitter.pitch_beg).take (Splitter.pitch_end - Splitter.pitch_beg)

/-- Splitter._pad: when the time length is not a multiple of input_len, fill
mode appends zero rows up to the next multiple, remove mode deletes the tail
remainder, and any other mode leaves the input unchanged. -/
def Splitter.pad (pianoroll : List (List (List ℚ))) (last_bar_mode : String) :
    List (List (List ℚ)) :=
  let pitches := Splitter.pitch_end - Splitter.pitch_beg
  let tracks := ((pianoroll.headD []).headD []).length
  if pianoroll.length % Splitter.input_len ≠ 0 then
    if last_bar_mode = "fill" then
      pianoroll ++ List.replicate (Splitter.input_len - pianoroll.length % Splitter.input_len)
        (List.replicate pitches (List.replicate tracks (0 : ℚ)))
    else if last_bar_mode = "remove" then
      pianoroll.take (pianoroll.length - pianoroll.length % Splitter.input_len)
    else pianoroll
  else pianoroll

/-- Splitter._adjustVelocity: the identity. -/
def Splitter.adjustVelocity (pianoroll : List (List (List ℚ))) : List (List (List ℚ)) :=
  pianoroll

/-- Splitter._reshapeToInput: reshape (-1, input_len, pitches, tracks), i.e.
regroup the time axis into consecutive segments of input_len. -/
def Splitter.reshapeToInput (pianoroll : List (List (List ℚ))) :
    List (List (List (List ℚ))) :=
  chunks Splitter.input_len pianoroll

/-- Splitter.split: clamp, pad, adjust velocity, segment. -/
def Splitter.split (pianoroll : List (List (List ℚ))) (last_bar_mode : String) :
    List (List (List (List ℚ))) :=
  Splitter.reshapeToInput (Splitter.adjustVelocity (Splitter.pad (Splitter.clampPitch pianoroll) last_bar_mode))

/-- Concrete accepted input for claim C4: a single 4/4 time signature at time
0 and a single tempo segment. -/
def pm4 : PrettyMIDI :=
  { time_signature_changes := [⟨4, 4, 0⟩]
    estimate_beat_start := some 0
    tempo_change_times := [0]
    tempi := [120]
    note_velocities := [] }

end Preprocess

/-! ## Helper lemmas -/

theorem chunksAux_flatten {α : Type} (n : ℕ) (hn : 0 < n) :
    ∀ (fuel : ℕ) (l : List α), l.length ≤ fuel → (chunksAux n fuel l).flatten = l := by
  intro fuel
  induction fuel with
  | zero =>
    intro l hl
    have h0 : l = [] := List.eq_nil_of_length_eq_zero (Nat.le_zero.mp hl)
    subst h0; rfl
  | succ fuel ih =>
    intro l hl
    cases l with
    | nil => rfl
    | cons a l =>
      simp only [chunksAux, List.flatten_cons]
      rw [ih ((a :: l).drop n)
        (by simp only [List.length_drop, List.length_cons] at hl ⊢; omega)]
      exact List.take_append_drop n (a :: l)

theorem chunks_flatten {α : Type} (n : ℕ) (hn : 0 < n) (l : List α) :
    (chunks n l).flatten = l :=
  chunksAux_flatten n hn l.length l le_rfl

theorem insertR_perm {α : Type} (le : α → α → Bool) (a : α) (l : List α) :
    (insertR le a l).Perm (a :: l) := by
  induction l with
  | nil => exact List.Perm.refl _
  | cons b l ih =>
    simp only [insertR]
    split
    · exact ((ih.cons b).trans (List.Perm.swap a b l))
    · exact List.Perm.refl _

theorem stableSort_perm {α : Type} (le : α → α → Bool) (l : List α) :
    (stableSort le l).Perm l := by
  suffices h : ∀ (l acc : List α),
      (l.foldl (fun acc a => insertR le a acc) acc).Perm (acc ++ l) by
    simpa using h l []
  intro l
  induction l with
  | nil => intro acc; simp
  | cons a l ih =>
    intro acc
    simp only [List.foldl_cons]
    have h1 := ih (insertR le a acc)
    have h2 : ((insertR le a acc) ++ l).Perm ((a :: acc) ++ l) :=
      (insertR_perm le a acc).append_right l
    have h3 : (a :: (acc ++ l)).Perm (acc ++ a :: l) := List.perm_middle.symm
    exact (h1.trans h2).trans h3

theorem popN_eq {α : Type} (j : ℕ) :
    ∀ (m : ℕ) (l : List α), j + m ≤ l.length →
      popN j m l = l.take j ++ l.drop (j + m) := by
  intro m
  induction m with
  | zero => intro l _; simp [popN]
  | succ m ih =>
    intro l h
    have hlt : (l.take j).length = j := by
      simp only [List.length_take]
      omega
    show popN j m (pyPop l j) = l.take j ++ l.drop (j + (m + 1))
    rw [ih (pyPop l j)
      (by simp only [pyPop, List.length_append, List.length_take, List.length_drop]; omega)]
    unfold pyPop
    rw [List.take_left' hlt]
    congr 1
    rw [← List.drop_drop, List.drop_left' hlt, List.drop_drop]
    congr 1
    omega

/-! ## Claims about the Splitter (C6, C7, C8) and reconstruction validation (C9) -/

/-- C6.  Padding invariant: for every piano-roll tensor whose time length T is
not a multiple of the segment length (input_len = 64), fill-mode padding
returns a tensor whose time axis length is the smallest multiple of the
segment length that is at least T, whose first T rows equal the input, and
whose appended rows are all zero. -/
theorem c6_pad_fill (pr : List (List (List ℚ)))
    (hT : pr.length % Preprocess.Splitter.input_len ≠ 0)
    (hrow : ∀ row ∈ pr, row.length = 84) :
    (Preprocess.Splitter.pad pr ("fill")).length % Preprocess.Splitter.input_len = 0 ∧
    pr.length ≤ (Preprocess.Splitter.pad pr ("fill")).length ∧
    (∀ m, m % Preprocess.Splitter.input_len = 0 → pr.length ≤ m →
      (Preprocess.Splitter.pad pr ("fill")).length ≤ m) ∧
    (Preprocess.Splitter.pad pr ("fill")).take pr.length = pr ∧
    (∀ row ∈ (Preprocess.Splitter.pad pr ("fill")).drop pr.length,
      row = List.replicate 84
        (List.replicate ((pr.headD []).headD []).length (0 : ℚ))) := by
  have h64 : Preprocess.Splitter.input_len = 64 := rfl
  have hpad : Preprocess.Splitter.pad pr ("fill") =
      pr ++ List.replicate (Preprocess.Splitter.input_len
          - pr.length % Preprocess.Splitter.input_len)
        (List.replicate 84 (List.replicate ((pr.headD []).headD []).length (0 : ℚ))) := by
    unfold Preprocess.Splitter.pad
    rw [if_pos hT, if_pos rfl]
    norm_num [Preprocess.Splitter.pitch_end, Preprocess.Splitter.pitch_beg]
  rw [hpad]
  refine ⟨?_, ?_, ?_, ?_, ?_⟩
  · simp only [List.length_append, List.length_replicate, h64]
    omega
  · simp only [List.length_append, List.length_replicate]
    omega
  · intro m hm hle
    simp only [List.length_append, List.length_replicate, h64] at *
    omega
  · exact List.take_left pr _
  · intro row hr
    rw [List.drop_left] at hr
    exact (List.eq_of_mem_replicate hr)

/-- C6 witness: the padding invariant evaluated on a concrete 3-step roll. -/
theorem c6_pad_fill_witness :
    ((List.replicate 3 (List.replicate 84 [(0 : ℚ)])).length
        % Preprocess.Splitter.input_len ≠ 0) ∧
    ((Preprocess.Splitter.pad (List.replicate 3 (List.replicate 84 [(0 : ℚ)]))
        ("fill")).length % Preprocess.Splitter.input_len = 0 ∧
     (List.replicate 3 (List.replicate 84 [(0 : ℚ)])).length
        ≤ (Preprocess.Splitter.pad (List.replicate 3 (List.replicate 84 [(0 : ℚ)]))
            ("fill")).length ∧
     (∀ m, m % Preprocess.Splitter.input_len = 0 →
        (List.replicate 3 (List.replicate 84 [(0 : ℚ)])).length ≤ m →
        (Preprocess.Splitter.pad (List.replicate 3 (List.replicate 84 [(0 : ℚ)]))
            ("fill")).length ≤ m) ∧
     (Preprocess.Splitter.pad (List.replicate 3 (List.replicate 84 [(0 : ℚ)]))
        ("fill")).take (List.replicate 3 (List.replicate 84 [(0 : ℚ)])).length
        = List.replicate 3 (List.replicate 84 [(0 : ℚ)]) ∧
     (∀ row ∈ (Preprocess.Splitter.pad (List.replicate 3 (List.replicate 84 [(0 : ℚ)]))
          ("fill")).drop (List.replicate 3 (List.replicate 84 [(0 : ℚ)])).length,
        row = List.replicate 84
          (List.replicate (((List.replicate 3 (List.replicate 84 [(0 : ℚ)])).headD
              []).headD []).length (0 : ℚ)))) :=
  ⟨by decide,
   c6_pad_fill (List.replicate 3 (List.replicate 84 [(0 : ℚ)])) (by decide)
     (by intro row hr; exact (List.eq_of_mem_replicate hr) ▸ rfl)⟩

/-- C7.  Round-trip shape: segmenting a tensor of shape (T, 84, 4) with T an
exact multiple of the segment length and concatenating the segments back
reproduces the tensor exactly. -/
theorem c7_round_trip (pr : List (List (List ℚ)))
    (hT : pr.length % Preprocess.Splitter.input_len = 0)
    (hrow : ∀ row ∈ pr, row.length = 84)
    (hcell : ∀ row ∈ pr, ∀ c ∈ row, c.length = 4) :
    (Preprocess.Splitter.reshapeToInput pr).flatten = pr :=
  chunks_flatten Preprocess.Splitter.input_len (by decide) pr

/-- C7 witness: the round trip evaluated on a concrete 64-step tensor. -/
theorem c7_round_trip_witness :
    ((List.replicate 64 (List.replicate 84 (List.replicate 4 (0 : ℚ)))).length
        % Preprocess.Splitter.input_len = 0) ∧
    (Preprocess.Splitter.reshapeToInput
        (List.replicate 64 (List.replicate 84 (List.replicate 4 (0 : ℚ))))).flatten
      = List.replicate 64 (List.replicate 84 (List.replicate 4 (0 : ℚ))) :=
  ⟨by decide,
   c7_round_trip _ (by decide)
     (by intro row hr; exact (List.eq_of_mem_replicate hr) ▸ rfl)
     (by
        intro row hr c hc
        rw [List.eq_of_mem_replicate hr] at hc
        exact (List.eq_of_mem_replicate hc) ▸ rfl)⟩

/-- C8.  Degenerate mode pass-through: for every tensor and every
last_bar_mode other than fill and remove, Splitter._pad returns its input
unchanged, even when the time length is not a multiple of the segment
length. -/
theorem c8_mode_passthrough (pr : List (List (List ℚ))) (last_bar_mode : String)
    (h1 : last_bar_mode ≠ "fill") (h2 : last_bar_mode ≠ "remove") :
    Preprocess.Splitter.pad pr last_bar_mode = pr := by
  simp [Preprocess.Splitter.pad, h1, h2]

/-- C8 witness: a 3-step tensor with an unrecognized mode string is returned
unchanged. -/
theorem c8_mode_passthrough_witness :
    Preprocess.Splitter.pad [[[(1 : ℚ)]], [[(2 : ℚ)]], [[(3 : ℚ)]]] ("zero")
      = [[[(1 : ℚ)]], [[(2 : ℚ)]], [[(3 : ℚ)]]] :=
  c8_mode_passthrough _ _ (by decide) (by decide)

/-- C9.  Reconstruction input validation: write_piano_rolls_to_midi fails
(returns the failure signal, writing nothing) exactly when the three input
lists do not all have the same length. -/
theorem c9_length_validation (piano_rolls : List (List (List (List ℚ))))
    (program_nums : List ℕ) (is_drum : List Bool) (velocity : ℤ)
    (tempo beat_resolution : ℚ) :
    WriteMidi.write_piano_rolls_to_midi piano_rolls program_nums is_drum velocity
        tempo beat_resolution = none ↔
      ¬ (piano_rolls.length = program_nums.length ∧
         piano_rolls.length = is_drum.length) := by
  unfold WriteMidi.write_piano_rolls_to_midi
  split
  · rename_i h
    simp only [true_iff]
    intro hc
    rcases h with h | h <;> exact h (by omega)
  · rename_i h
    push_neg at h
    simp [h.1, h.2]
    omega

/-! ## Claims about the suitability filter (C4, C10) -/

theorem get_midi_info_first_beat_nonneg (pm : Preprocess.PrettyMIDI)
    (hts : ∀ t ∈ pm.time_signature_changes, 0 ≤ t.time)
    (hest : 0 ≤ pm.estimate_beat_start.getD 0) :
    ∀ mi, Preprocess.get_midi_info pm = some mi → 0 ≤ mi.first_beat_time := by
  intro mi hmi
  by_cases hemp : pm.time_signature_changes.isEmpty
  · simp only [Preprocess.get_midi_info, hemp, if_true] at hmi
    cases he : pm.estimate_beat_start with
    | none => rw [he] at hmi; exact absurd hmi (by simp)
    | some q =>
      rw [he] at hmi
      simp only [Option.some.injEq] at hmi
      rw [← hmi]
      simpa [he] using hest
  · simp [Preprocess.get_midi_info, hemp] at hmi
    set sorted := stableSort (fun a b => decide (a.time ≤ b.time))
      pm.time_signature_changes with hsorted
    have hperm := stableSort_perm (fun a b => decide (a.time ≤ b.time))
      pm.time_signature_changes
    have hne : sorted ≠ [] := by
      intro hc
      rw [← hsorted, hc] at hperm
      have := hperm.symm.length_eq
      simp only [List.length_nil] at this
      exact hemp (by simp [List.isEmpty_iff, List.length_eq_zero.mp this])
    cases hs : sorted with
    | nil => exact absurd hs hne
    | cons a l =>
      have hmem : a ∈ pm.time_signature_changes := by
        rw [← hsorted] at hperm
        exact hperm.subset (hs ▸ List.mem_cons_self a l)
      rw [← hmi]
      simpa [hs] using hts a hmem

/-- C4.  Filter predicate: isSuitable returns true exactly when the file
parses, the analysis succeeds, the first beat time is exactly 0 (given
nonnegative event times), at most one time-signature change is present, and
the detected time signature is exactly 4/4; in every other case (parse or
analysis failure, positive first beat, several time-signature changes, other
signature) it returns false, and it is a pure function of the parse result. -/
theorem c4_filter_iff (parsed : Option Preprocess.PrettyMIDI)
    (h : ∀ pm, parsed = some pm →
      (∀ t ∈ pm.time_signature_changes, 0 ≤ t.time) ∧
        0 ≤ pm.estimate_beat_start.getD 0) :
    Preprocess.isSuitable parsed = true ↔
      ∃ pm mi, parsed = some pm ∧ Preprocess.get_midi_info pm = some mi ∧
        mi.first_beat_time = 0 ∧ ¬ mi.num_time_signature_change > 1 ∧
        mi.time_signature = some ("4/4") := by
  cases parsed with
  | none => simp [Preprocess.isSuitable]
  | some pm =>
    obtain ⟨hts, hest⟩ := h pm rfl
    constructor
    · intro hacc
      cases hmi : Preprocess.get_midi_info pm with
      | none =>
        simp only [Preprocess.isSuitable, hmi] at hacc
        exact absurd hacc (by simp)
      | some mi =>
        simp only [Preprocess.isSuitable, hmi] at hacc
        split_ifs at hacc with g1 g2 g3
        refine ⟨pm, mi, rfl, hmi, ?_, g2, by simpa using g3⟩
        exact le_antisymm (not_lt.mp g1)
          (get_midi_info_first_beat_nonneg pm hts hest mi hmi)
    · rintro ⟨pm', mi, heq, hmi, h0, hnum, hsig⟩
      have hpm : pm' = pm := by injection heq with h'; exact h'.symm
      subst hpm
      simp [Preprocess.isSuitable, hmi, h0, hnum, hsig]

/-- C4 witness: a file with a single 4/4 time signature at time 0 is
accepted. -/
theorem c4_filter_iff_witness :
    ∃ pm mi, some Preprocess.pm4 = some pm ∧
      Preprocess.get_midi_info pm = some mi ∧ mi.first_beat_time = 0 ∧
      ¬ mi.num_time_signature_change > 1 ∧ mi.time_signature = some ("4/4") :=
  (c4_filter_iff (some Preprocess.pm4)
    (by intro pm hpm; injection hpm with h'; rw [← h']; exact ⟨by decide, by decide⟩)).mp
    (by decide)

/-- C10.  Implicit edge case: a file that parses but has zero
time-signature-change events is always rejected, whatever its estimated beat
start, because the detected time signature is then None. -/
theorem c10_zero_ts (pm : Preprocess.PrettyMIDI)
    (h : pm.time_signature_changes = []) :
    Preprocess.isSuitable (some pm) = false := by
  cases hmi : Preprocess.get_midi_info pm with
  | none => simp [Preprocess.isSuitable, hmi]
  | some mi =>
    have hsig : mi.time_signature = none := by
      simp only [Preprocess.get_midi_info, h, List.isEmpty_nil, if_true] at hmi
      cases he : pm.estimate_beat_start with
      | none => rw [he] at hmi; exact absurd hmi (by simp)
      | some q =>
        rw [he] at hmi
        simp only [Option.some.injEq] at hmi
        rw [← hmi]
        simp
    simp [Preprocess.isSuitable, hmi, hsig]

/-- C10 witness: a parsed file with no time-signature events and estimated
beat start 0 is rejected. -/
theorem c10_zero_ts_witness :
    Preprocess.isSuitable (some ⟨[], some 0, [], [], []⟩) = false :=
  c10_zero_ts ⟨[], some 0, [], [], []⟩ rfl

/-! ## Claim about the track merger (C5) -/

theorem categoryList_go (l : List Preprocess.PTrack) :
    ∀ (k : ℕ) (cl : Preprocess.CategoryList),
      (l.enumFrom k).foldl (fun c p => Preprocess.addTrack c p.1 p.2) cl =
        { piano := cl.piano
            ++ (((l.enumFrom k).filter fun p => Preprocess.inBucket 0 p.2).map Prod.fst)
          guitar := cl.guitar
            ++ (((l.enumFrom k).filter fun p => Preprocess.inBucket 1 p.2).map Prod.fst)
          bass := cl.bass
            ++ (((l.enumFrom k).filter fun p => Preprocess.inBucket 2 p.2).map Prod.fst)
          strings := cl.strings
            ++ (((l.enumFrom k).filter fun p => Preprocess.inBucket 3 p.2).map Prod.fst) } := by
  induction l with
  | nil => intro k cl; simp [List.enumFrom]
  | cons t l ih =>
    intro k cl
    simp only [List.enumFrom, List.foldl_cons]
    rw [ih]
    by_cases hd : t.is_drum
    · simp [Preprocess.addTrack, hd, Preprocess.inBucket]
    · by_cases h0 : t.program / 8 = 0
      · simp [Preprocess.addTrack, hd, h0, Preprocess.inBucket]
      · by_cases h3 : t.program / 8 = 3
        · simp [Preprocess.addTrack, hd, h0, h3, Preprocess.inBucket]
        · by_cases h4 : t.program / 8 = 4
          · simp [Preprocess.addTrack, hd, h0, h3, h4, Preprocess.inBucket]
          · by_cases h5 : t.program / 8 = 5
            · simp [Preprocess.addTrack, hd, h0, h3, h4, h5, Preprocess.inBucket]
            · simp [Preprocess.addTrack, hd, h0, h3, h4, h5, Preprocess.inBucket]

theorem categoryList_eq_buckets (tracks : List Preprocess.PTrack) :
    Preprocess.categoryList tracks =
      { piano := Preprocess.bucketIndices 0 tracks
        guitar := Preprocess.bucketIndices 1 tracks
        bass := Preprocess.bucketIndices 2 tracks
        strings := Preprocess.bucketIndices 3 tracks } := by
  have hgo := categoryList_go tracks 0 ⟨[], [], [], []⟩
  simpa [Preprocess.categoryList, Preprocess.bucketIndices, List.enum] using hgo

theorem mkMergedTrack_name (tracks : List Preprocess.PTrack) (il : List ℕ)
    (name : String) (program : ℕ) :
    (Preprocess.mkMergedTrack tracks il name program).name = name := by
  unfold Preprocess.mkMergedTrack
  split <;> rfl

theorem mkMergedTrack_pianoroll (tracks : List Preprocess.PTrack) (il : List ℕ)
    (name : String) (program : ℕ) :
    (Preprocess.mkMergedTrack tracks il name program).pianoroll =
      if il = [] then []
      else Preprocess.get_merged_pianoroll
        (il.map fun i => (tracks.getD i default).pianoroll) := by
  unfold Preprocess.mkMergedTrack
  rcases il with _ | ⟨a, il⟩ <;> simp

/-- C5.  Merge completeness: for every input multitrack, Converter._merge
returns exactly 4 tracks in the fixed order Piano, Guitar, Bass, Strings;
a bucket with mapped source tracks holds their element-wise-maximum merge and
a bucket with no mapped source tracks holds an empty (all-zero) track. -/
theorem c5_merge_completeness (mt : List Preprocess.PTrack) :
    (Preprocess.Converter.merge mt).length = 4 ∧
    (Preprocess.Converter.merge mt).map Preprocess.PTrack.name
      = [("Piano"), ("Guitar"), ("Bass"), ("Strings")] ∧
    ∀ k : Fin 4,
      ((Preprocess.Converter.merge mt).getD k default).pianoroll =
        if Preprocess.bucketIndices k mt = [] then []
        else Preprocess.get_merged_pianoroll
          ((Preprocess.bucketIndices k mt).map fun i => (mt.getD i default).pianoroll) := by
  have hcl := categoryList_eq_buckets mt
  refine ⟨rfl, ?_, ?_⟩
  · simp [Preprocess.Converter.merge, mkMergedTrack_name]
  · intro k
    fin_cases k <;>
      simp [Preprocess.Converter.merge, mkMergedTrack_pianoroll, hcl]

/-! ## Claim about minimum-duration enforcement (C3) -/

theorem getD_map_range {α : Type} (f : ℕ → α) (n i : ℕ) (h : i < n) (d : α) :
    ((List.range n).map f).getD i d = f i := by
  simp [List.getD_eq_getElem?_getD, List.getElem?_map, List.getElem?_range h]

theorem getD_map_of_lt {α β : Type} (g : α → β) (l : List α) (i : ℕ) (d : β)
    (d' : α) (h : i < l.length) :
    (l.map g).getD i d = g (l.getD i d') := by
  simp [List.getD_eq_getElem?_getD, List.getElem?_map, List.getElem?_eq_getElem h]

theorem getD_take_of_lt {α : Type} (l : List α) (n i : ℕ) (d : α) (h : i < n) :
    (l.take n).getD i d = l.getD i d := by
  simp [List.getD_eq_getElem?_getD, List.getElem?_take_of_lt h]

theorem zip_getD {α β : Type} :
    ∀ (l₁ : List α) (l₂ : List β) (i : ℕ) (d₁ : α) (d₂ : β),
      i < l₁.length → i < l₂.length →
      (l₁.zip l₂).getD i (d₁, d₂) = (l₁.getD i d₁, l₂.getD i d₂)
  | [], _, i, _, _, h₁, _ => absurd h₁ (by simp)
  | _ :: _, [], i, _, _, _, h₂ => absurd h₂ (by simp)
  | a :: l₁, b :: l₂, 0, d₁, d₂, _, _ => rfl
  | a :: l₁, b :: l₂, (i+1), d₁, d₂, h₁, h₂ => by
      simpa using zip_getD l₁ l₂ i d₁ d₂ (by simpa using h₁) (by simpa using h₂)

/-- C3.  Minimum duration enforcement: every emitted note whose detected
(post-scan) duration is below threshold gets end = start + threshold when that
fits under phrase_end_time and end = phrase_end_time otherwise, while notes
with duration at least threshold keep their detected start and end. -/
theorem c3_min_duration (M : List (List ℤ)) (tpp threshold phrase_end_time : ℚ)
    (note_num idx : ℕ)
    (h : idx < (WriteMidi.notesForPitch M tpp threshold phrase_end_time note_num).length) :
    ((WriteMidi.notesForPitch M tpp threshold phrase_end_time note_num).getD idx
        default).start
      = (WriteMidi.survivedTimes M tpp threshold note_num).1.getD idx 0 ∧
    ((WriteMidi.notesForPitch M tpp threshold phrase_end_time note_num).getD idx
        default).stop
      = (if threshold ≤ (WriteMidi.survivedTimes M tpp threshold note_num).2.getD idx 0
            - (WriteMidi.survivedTimes M tpp threshold note_num).1.getD idx 0
         then (WriteMidi.survivedTimes M tpp threshold note_num).2.getD idx 0
         else if (WriteMidi.survivedTimes M tpp threshold note_num).1.getD idx 0
              + threshold ≤ phrase_end_time
           then (WriteMidi.survivedTimes M tpp threshold note_num).1.getD idx 0 + threshold
           else phrase_end_time) := by
  set S := (WriteMidi.survivedTimes M tpp threshold note_num).1 with hSdef
  set E := (WriteMidi.survivedTimes M tpp threshold note_num).2 with hEdef
  clear_value S E
  have hlen : (WriteMidi.notesForPitch M tpp threshold phrase_end_time note_num).length
      = (if E.length < S.length then S.take (S.length - (S.length - E.length))
         else S).length := by
    simp [WriteMidi.notesForPitch, ← hSdef, ← hEdef]
  by_cases htr : E.length < S.length
  · have hlen2 : idx < E.length := by
      rw [hlen, if_pos htr] at h
      simp only [List.length_take] at h
      omega
    have hlenS : idx < S.length := by omega
    have hS2 : (S.take (S.length - (S.length - E.length))).getD idx 0 = S.getD idx 0 :=
      getD_take_of_lt S _ idx 0 (by omega)
    have hdur : ((S.zip E).map fun q => q.2 - q.1).getD idx 0
        = E.getD idx 0 - S.getD idx 0 := by
      rw [getD_map_of_lt _ _ _ _ ((0 : ℚ), (0 : ℚ))
        (by simp [List.length_zip]; omega)]
      rw [zip_getD S E idx 0 0 hlenS hlen2]
    simp only [WriteMidi.notesForPitch, ← hSdef, ← hEdef, if_pos htr]
    rw [getD_map_range _ _ idx (by rw [hlen, if_pos htr] at h; exact h)]
    simp only [hS2, hdur, ge_iff_le]
    constructor
    · split_ifs <;> rfl
    · split_ifs <;> rfl
  · have hlenS : idx < S.length := by
      rw [hlen, if_neg htr] at h
      exact h
    have hlenE : idx < E.length := by omega
    have hdur : ((S.zip E).map fun q => q.2 - q.1).getD idx 0
        = E.getD idx 0 - S.getD idx 0 := by
      rw [getD_map_of_lt _ _ _ _ ((0 : ℚ), (0 : ℚ))
        (by simp [List.length_zip]; omega)]
      rw [zip_getD S E idx 0 0 hlenS hlenE]
    simp only [WriteMidi.notesForPitch, ← hSdef, ← hEdef, if_neg htr]
    rw [getD_map_range _ _ idx (by rw [hlen, if_neg htr] at h; exact h)]
    simp only [hdur, ge_iff_le]
    constructor
    · split_ifs <;> rfl
    · split_ifs <;> rfl

/-- C3 witness: a two-step sustained note at pitch 0 keeps its detected start
0 and end 2 since its duration 2 is at least threshold 1. -/
theorem c3_min_duration_witness :
    (0 < (WriteMidi.notesForPitch [[5], [5]] 1 1 100 0).length) ∧
    (((WriteMidi.notesForPitch [[5], [5]] 1 1 100 0).getD 0 default).start
        = (WriteMidi.survivedTimes [[5], [5]] 1 1 0).1.getD 0 0 ∧
     ((WriteMidi.notesForPitch [[5], [5]] 1 1 100 0).getD 0 default).stop
        = (if (1 : ℚ) ≤ (WriteMidi.survivedTimes [[5], [5]] 1 1 0).2.getD 0 0
              - (WriteMidi.survivedTimes [[5], [5]] 1 1 0).1.getD 0 0
           then (WriteMidi.survivedTimes [[5], [5]] 1 1 0).2.getD 0 0
           else if (WriteMidi.survivedTimes [[5], [5]] 1 1 0).1.getD 0 0 + 1 ≤ (100 : ℚ)
             then (WriteMidi.survivedTimes [[5], [5]] 1 1 0).1.getD 0 0 + 1
             else 100)) :=
  ⟨by with_unfolding_all decide,
   c3_min_duration [[5], [5]] 1 1 100 0 0 (by with_unfolding_all decide)⟩

/-! ## Claim about the de-duplication window (C1) -/

/-- C1 counterexample.  At tempo 120, beat_resolution 16 (tpp = 1/32,
threshold = 4/32), the pitch-0 column 1,0,1,0,0,1 yields detected onsets
0, 2/32, 5/32 with offsets 1/32, 3/32, 6/32.  The onset at 5/32 and its
offset 6/32 both lie in the inclusive window [2/32, 2/32 + threshold] of the
detected onset 2/32, so the claim says it is discarded; the code keeps it
(it only scans from surviving onsets, and 2/32 was itself discarded). -/
theorem c1_counterexample :
    WriteMidi.detectedStartTimes (WriteMidi.scaledRoll WriteMidi.c1Roll) (60/120/16) 0
        = [0, 2/32, 5/32] ∧
    WriteMidi.detectedEndTimes (WriteMidi.scaledRoll WriteMidi.c1Roll) (60/120/16) 0
        = [1/32, 3/32, 6/32] ∧
    (2 : ℚ)/32 + 60/120/4 = 6/32 ∧
    WriteMidi.dedup (60/120/4)
        (WriteMidi.detectedStartTimes (WriteMidi.scaledRoll WriteMidi.c1Roll) (60/120/16) 0)
        (WriteMidi.detectedEndTimes (WriteMidi.scaledRoll WriteMidi.c1Roll) (60/120/16) 0)
      = ([0, 5/32], [1/32, 6/32]) := by
  with_unfolding_all decide

theorem greedyAux_eq_greedyDedup (threshold : ℚ) :
    ∀ (fuel : ℕ) (l : List (ℚ × ℚ)), l.length ≤ fuel →
      WriteMidi.greedyAux threshold fuel l = WriteMidi.greedyDedup threshold l := by
  intro fuel
  induction fuel using Nat.strong_induction_on with
  | _ fuel ih =>
    match fuel with
    | 0 =>
      intro l hl
      have h0 : l = [] := List.eq_nil_of_length_eq_zero (Nat.le_zero.mp hl)
      subst h0; rfl
    | (f + 1) =>
      intro l hl
      match l with
      | [] => rfl
      | (p :: rest) =>
        have hr : rest.length ≤ f := by simpa using hl
        have hfilter :
            (rest.filter fun q => !(WriteMidi.windowBool threshold p.1 q)).length
              ≤ rest.length := List.length_filter_le _ _
        show p :: WriteMidi.greedyAux threshold f _ = WriteMidi.greedyDedup threshold (p :: rest)
        rw [ih f (by omega) _ (le_trans hfilter hr)]
        show _ = WriteMidi.greedyAux threshold (p :: rest).length (p :: rest)
        rw [show (p :: rest).length = rest.length + 1 from rfl]
        show _ = p :: WriteMidi.greedyAux threshold rest.length _
        rw [ih rest.length (by omega) _ hfilter]

theorem greedyDedup_cons (threshold : ℚ) (p : ℚ × ℚ) (rest : List (ℚ × ℚ)) :
    WriteMidi.greedyDedup threshold (p :: rest)
      = p :: WriteMidi.greedyDedup threshold
          (rest.filter fun q => !(WriteMidi.windowBool threshold p.1 q)) := by
  show WriteMidi.greedyAux threshold (p :: rest).length (p :: rest) = _
  rw [show (p :: rest).length = rest.length + 1 from rfl]
  show p :: WriteMidi.greedyAux threshold rest.length _ = _
  rw [greedyAux_eq_greedyDedup threshold rest.length _ (List.length_filter_le _ _)]

theorem greedyDedup_short (threshold : ℚ) (l : List (ℚ × ℚ)) (h : l.length ≤ 1) :
    WriteMidi.greedyDedup threshold l = l := by
  match l with
  | [] => rfl
  | [q] => rw [greedyDedup_cons]; rfl
  | (q :: r :: l) => simp at h

theorem survivesBool_append (threshold : ℚ) (A : List (ℚ × ℚ)) (p q : ℚ × ℚ) :
    WriteMidi.survivesBool threshold (A ++ [p]) q
      = (WriteMidi.survivesBool threshold A q
          && !(WriteMidi.windowBool threshold p.1 q)) := by
  simp [WriteMidi.survivesBool, List.all_append]

theorem wfilter_append (threshold : ℚ) (A : List (ℚ × ℚ)) (p : ℚ × ℚ)
    (l : List (ℚ × ℚ)) :
    l.filter (WriteMidi.survivesBool threshold (A ++ [p]))
      = (l.filter (WriteMidi.survivesBool threshold A)).filter
          (fun q => !(WriteMidi.windowBool threshold p.1 q)) := by
  rw [List.filter_filter]
  apply List.filter_congr
  intro q _
  rw [survivesBool_append]
  rw [Bool.and_comm]

theorem windowBool_mono (threshold s : ℚ) (p q : ℚ × ℚ)
    (h1 : p.1 < q.1) (h2 : p.2 < q.2)
    (hq : WriteMidi.windowBool threshold s q = true) :
    WriteMidi.windowBool threshold s p = true := by
  simp only [WriteMidi.windowBool, Bool.and_eq_true, decide_eq_true_eq] at *
  exact ⟨lt_trans h1 hq.1, le_of_lt (lt_of_lt_of_le h2 hq.2)⟩

theorem getD_mem_of_lt {α : Type} (l : List α) (k : ℕ) (d : α) (h : k < l.length) :
    l.getD k d ∈ l := by
  rw [List.getD_eq_getElem?_getD, List.getElem?_eq_getElem h]
  exact List.get_mem l k h

theorem indexOf_append_cons_self {α : Type} [DecidableEq α]
    (l₁ l₂ : List α) (a : α) (h : a ∉ l₁) :
    (l₁ ++ a :: l₂).indexOf a = l₁.length := by
  induction l₁ with
  | nil => simp
  | cons b l₁ ih =>
    have hb : b ≠ a := fun hc => h (hc ▸ List.mem_cons_self b l₁)
    rw [List.cons_append, List.indexOf_cons_ne _ hb,
      ih (fun hc => h (List.mem_cons_of_mem b hc))]
    rfl

theorem filter_range_shift (c L : ℕ) (q : ℕ → Bool) :
    (List.range (c + L)).filter (fun j => decide (c ≤ j) && q j)
      = ((List.range L).filter fun k => q (c + k)).map (c + ·) := by
  rw [List.range_add, List.filter_append]
  have h1 : (List.range c).filter (fun j => decide (c ≤ j) && q j) = [] := by
    rw [List.filter_eq_nil_iff]
    intro j hj
    have : j < c := List.mem_range.mp hj
    simp [Nat.not_le.mpr this]
  rw [h1, List.nil_append, List.filter_map]
  congr 1
  apply List.filter_congr
  intro k _
  simp [Nat.le_add_right]

theorem filter_range_eq_range_takeWhile {α : Type} (f : α → Bool) (d : α) :
    ∀ (l : List α), (l.Pairwise fun a b => f b = true → f a = true) →
      (List.range l.length).filter (fun k => f (l.getD k d))
        = List.range (l.takeWhile f).length := by
  intro l
  induction l with
  | nil => simp
  | cons a l ih =>
    intro hp
    obtain ⟨hphead, hptail⟩ := List.pairwise_cons.mp hp
    rw [show (a :: l).length = l.length + 1 from rfl, List.range_succ_eq_map,
      List.filter_cons]
    by_cases hfa : f a = true
    · simp only [List.getD_cons_zero, hfa, if_pos]
      rw [List.filter_map]
      have hcongr : ((List.range l.length).filter fun k =>
            (fun j => f ((a :: l).getD j d)) (Nat.succ k))
          = (List.range l.length).filter fun k => f (l.getD k d) := by
        apply List.filter_congr
        intro k _
        simp [List.getD_cons_succ]
      show _ :: List.map Nat.succ ((List.range l.length).filter fun k =>
          (fun j => f ((a :: l).getD j d)) (Nat.succ k)) = _
      rw [hcongr, ih hptail, List.takeWhile_cons_of_pos hfa,
        show (a :: l.takeWhile f).length = (l.takeWhile f).length + 1 from rfl,
        List.range_succ_eq_map]
    · simp only [List.getD_cons_zero, hfa, if_neg, Bool.false_eq_true,
        not_false_eq_true]
      rw [List.takeWhile_cons_of_neg (by simp [hfa]), List.filter_map]
      have hnil : (List.range l.length).filter
          ((fun k => f ((a :: l).getD k d)) ∘ Nat.succ) = [] := by
        rw [List.filter_eq_nil_iff]
        intro k hk
        simp only [Function.comp_apply, List.getD_cons_succ]
        intro hc
        have hmem : l.getD k d ∈ l := getD_mem_of_lt l k d (List.mem_range.mp hk)
        exact hfa (hphead _ hmem hc)
      rw [hnil]
      rfl

theorem dropWhile_eq_filter_not {α : Type} (f : α → Bool) :
    ∀ (l : List α), (l.Pairwise fun a b => f b = true → f a = true) →
      l.dropWhile f = l.filter fun a => !f a := by
  intro l
  induction l with
  | nil => intro _; rfl
  | cons a l ih =>
    intro hp
    obtain ⟨hphead, hptail⟩ := List.pairwise_cons.mp hp
    by_cases hfa : f a = true
    · rw [List.dropWhile_cons_of_pos hfa, List.filter_cons, if_neg (by simp [hfa]),
        ih hptail]
    · rw [List.dropWhile_cons_of_neg (by simp [hfa]), List.filter_cons,
        if_pos (by simp [hfa])]
      congr 1
      symm
      rw [List.filter_eq_self]
      intro b hb
      have : ¬ f b = true := fun hc => hfa (hphead b hb hc)
      simp [this]

theorem drop_length_takeWhile {α : Type} (f : α → Bool) (l : List α) :
    l.drop (l.takeWhile f).length = l.dropWhile f := by
  nth_rewrite 2 [← List.takeWhile_append_dropWhile (p := f) (l := l)]
  rw [List.drop_left]

theorem popN_append_block {α : Type} (F u : List α) (m : ℕ) (hm : m ≤ u.length) :
    popN F.length m (F ++ u) = F ++ u.drop m := by
  rw [popN_eq F.length m (F ++ u) (by simp; omega)]
  rw [List.take_left]
  congr 1
  rw [← List.drop_drop, List.drop_left]

theorem t_characterization (threshold s : ℚ) (c : ℕ) (F G : List ℚ)
    (B1 : List (ℚ × ℚ)) (hFc : F.length = c) (hGc : G.length = c)
    (hmono : B1.Pairwise fun p q => p.1 < q.1 ∧ p.2 < q.2) :
    (List.range (c + B1.length)).filter (fun j =>
        decide (c ≤ j) && decide ((F ++ B1.map Prod.fst).getD j 0 < s + threshold)
          && decide ((G ++ B1.map Prod.snd).getD j 0 ≤ s + threshold))
      = (List.range ((B1.takeWhile (WriteMidi.windowBool threshold s)).length)).map
          (c + ·) := by
  have hassoc : (fun j =>
        decide (c ≤ j) && decide ((F ++ B1.map Prod.fst).getD j 0 < s + threshold)
          && decide ((G ++ B1.map Prod.snd).getD j 0 ≤ s + threshold))
      = (fun j => decide (c ≤ j)
          && (decide ((F ++ B1.map Prod.fst).getD j 0 < s + threshold)
            && decide ((G ++ B1.map Prod.snd).getD j 0 ≤ s + threshold))) := by
    funext j
    rw [Bool.and_assoc]
  rw [hassoc, filter_range_shift]
  congr 1
  have hcongr : ((List.range B1.length).filter fun k =>
        decide ((F ++ B1.map Prod.fst).getD (c + k) 0 < s + threshold)
          && decide ((G ++ B1.map Prod.snd).getD (c + k) 0 ≤ s + threshold))
      = (List.range B1.length).filter fun k =>
          WriteMidi.windowBool threshold s (B1.getD k (0, 0)) := by
    apply List.filter_congr
    intro k hk
    have hk' : k < B1.length := List.mem_range.mp hk
    have hgF : (F ++ B1.map Prod.fst).getD (c + k) 0 = (B1.getD k ((0 : ℚ), (0 : ℚ))).1 := by
      rw [List.getD_eq_getElem?_getD, List.getElem?_append_right (by omega)]
      rw [show c + k - F.length = k by omega]
      rw [← List.getD_eq_getElem?_getD]
      exact getD_map_of_lt Prod.fst B1 k 0 ((0 : ℚ), (0 : ℚ)) hk'
    have hgG : (G ++ B1.map Prod.snd).getD (c + k) 0 = (B1.getD k ((0 : ℚ), (0 : ℚ))).2 := by
      rw [List.getD_eq_getElem?_getD, List.getElem?_append_right (by omega)]
      rw [show c + k - G.length = k by omega]
      rw [← List.getD_eq_getElem?_getD]
      exact getD_map_of_lt Prod.snd B1 k 0 ((0 : ℚ), (0 : ℚ)) hk'
    rw [hgF, hgG]
    rfl
  rw [hcongr]
  exact filter_range_eq_range_takeWhile (WriteMidi.windowBool threshold s) (0, 0) B1
    (hmono.imp fun h hb => windowBool_mono threshold s _ _ h.1 h.2 hb)

theorem dedup_invariant_step (threshold : ℚ) (P : List (ℚ × ℚ))
    (hP : P.Pairwise fun p q => p.1 < q.1 ∧ p.2 < q.2)
    (i : ℕ) (hi : i + 1 < P.length) (A B : List (ℚ × ℚ))
    (hA : A.Sublist (P.take i))
    (hB : B = (P.drop i).filter (WriteMidi.survivesBool threshold A))
    (hg : WriteMidi.greedyDedup threshold P
        = A ++ WriteMidi.greedyDedup threshold B) :
    ∃ A' B',
      WriteMidi.dedupStep threshold (P.map Prod.fst)
          ((A ++ B).map Prod.fst, (A ++ B).map Prod.snd) i
        = ((A' ++ B').map Prod.fst, (A' ++ B').map Prod.snd) ∧
      A'.Sublist (P.take (i + 1)) ∧
      B' = (P.drop (i + 1)).filter (WriteMidi.survivesBool threshold A') ∧
      WriteMidi.greedyDedup threshold P
        = A' ++ WriteMidi.greedyDedup threshold B' := by
  have hilt : i < P.length := by omega
  set p := P.get ⟨i, hilt⟩ with hpdef
  have hdropi : P.drop i = p :: P.drop (i + 1) := List.drop_eq_get_cons hilt
  have htake_succ : P.take (i + 1) = P.take i ++ [p] := by
    rw [List.take_succ, List.getElem?_eq_getElem hilt]
    rfl
  have hpmem : p ∈ P.take (i + 1) := by
    rw [htake_succ]
    exact List.mem_append.mpr (Or.inr (List.mem_cons_self p []))
  have hsplit1 := List.pairwise_append.mp ((List.take_append_drop i P).symm ▸ hP)
  have hAtake : ∀ a ∈ A, a.1 < p.1 := by
    intro a ha
    have haP : a ∈ P.take i := hA.subset ha
    have := hsplit1.2.2 a haP p (by rw [hdropi]; exact List.mem_cons_self _ _)
    exact this.1
  have hsplit2 := List.pairwise_append.mp ((List.take_append_drop (i + 1) P).symm ▸ hP)
  have hdrop_gt : ∀ q ∈ P.drop (i + 1), p.1 < q.1 :=
    fun q hq => (hsplit2.2.2 p hpmem q hq).1
  have hsi : (P.map Prod.fst).getD i 0 = p.1 := by
    rw [List.getD_eq_getElem?_getD, List.getElem?_map, List.getElem?_eq_getElem hilt]
    rfl
  have hnotA : p.1 ∉ A.map Prod.fst := by
    intro hc
    obtain ⟨a, ha, hfst⟩ := List.mem_map.mp hc
    exact absurd hfst (ne_of_lt (hAtake a ha))
  set B1 := (P.drop (i + 1)).filter (WriteMidi.survivesBool threshold A) with hB1
  have hB1drop : B1.Sublist (P.drop (i + 1)) := List.filter_sublist _
  have hB1pair : B1.Pairwise fun p q => p.1 < q.1 ∧ p.2 < q.2 :=
    List.Pairwise.sublist (hB1drop.trans (List.drop_sublist _ _)) hP
  by_cases hs : WriteMidi.survivesBool threshold A p = true
  · -- the i-th onset survived the earlier windows: its window is applied
    have hBeq : B = p :: B1 := by
      rw [hB, hdropi, List.filter_cons, if_pos hs]
    have hts_eq2 : (A ++ B).map Prod.fst
        = (A.map Prod.fst ++ [p.1]) ++ B1.map Prod.fst := by
      rw [hBeq]; simp
    have hte_eq2 : (A ++ B).map Prod.snd
        = (A.map Prod.snd ++ [p.2]) ++ B1.map Prod.snd := by
      rw [hBeq]; simp
    have hmem_ts : (P.map Prod.fst).getD i 0 ∈ (A ++ B).map Prod.fst := by
      rw [hsi, hBeq]; simp
    have hlen_ne : i ≠ (P.map Prod.fst).length - 1 := by
      rw [List.length_map]; omega
    have hidx : ((A ++ B).map Prod.fst).indexOf ((P.map Prod.fst).getD i 0)
        = A.length := by
      rw [hsi, hts_eq2, List.append_assoc, List.singleton_append,
        indexOf_append_cons_self _ _ _ hnotA, List.length_map]
    have hlen_ts : ((A ++ B).map Prod.fst).length = (A.length + 1) + B1.length := by
      rw [hts_eq2]
      simp only [List.length_append, List.length_map, List.length_cons,
        List.length_nil]
    set m := (B1.takeWhile (WriteMidi.windowBool threshold p.1)).length with hm
    have hmle : m ≤ B1.length := by
      rw [hm]
      exact (List.takeWhile_prefix _).sublist.length_le
    have hdropm : B1.drop m = B1.filter fun q =>
        !(WriteMidi.windowBool threshold p.1 q) := by
      rw [hm, drop_length_takeWhile, dropWhile_eq_filter_not]
      exact hB1pair.imp fun h hb => windowBool_mono threshold p.1 _ _ h.1 h.2 hb
    refine ⟨A ++ [p], B1.filter fun q => !(WriteMidi.windowBool threshold p.1 q),
      ?_, ?_, ?_, ?_⟩
    · -- the computed step
      simp only [WriteMidi.dedupStep]
      rw [if_pos ⟨hmem_ts, hlen_ne⟩]
      rw [hidx, hsi, hlen_ts, hts_eq2, hte_eq2]
      rw [t_characterization threshold p.1 (A.length + 1) (A.map Prod.fst ++ [p.1])
        (A.map Prod.snd ++ [p.2]) B1 (by simp) (by simp) hB1pair]
      rw [← hm, ← hdropm]
      cases hm0 : m with
      | zero =>
        simp only [List.range_zero, List.map_nil, List.length_nil, List.headD_nil]
        show ((A.map Prod.fst ++ [p.1]) ++ B1.map Prod.fst,
            (A.map Prod.snd ++ [p.2]) ++ B1.map Prod.snd) = _
        rw [List.drop_zero]
        simp
      | succ m' =>
        have hhead : ((List.range (m' + 1)).map ((A.length + 1) + ·)).headD 0
            = A.length + 1 := by
          rw [List.range_succ_eq_map]
          rfl
        have hlenT : ((List.range (m' + 1)).map ((A.length + 1) + ·)).length
            = m' + 1 := by simp
        rw [hhead, hlenT]
        have hF1 : (A.map Prod.fst ++ [p.1]).length = A.length + 1 := by simp
        have hF2 : (A.map Prod.snd ++ [p.2]).length = A.length + 1 := by simp
        rw [show A.length + 1 = (A.map Prod.fst ++ [p.1]).length from hF1.symm]
        rw [popN_append_block _ _ _ (by simp only [List.length_map]; omega)]
        rw [hF1, show A.length + 1 = (A.map Prod.snd ++ [p.2]).length from hF2.symm]
        rw [popN_append_block _ _ _ (by simp only [List.length_map]; omega)]
        rw [← List.map_drop, ← List.map_drop]
        simp
    · rw [htake_succ]
      exact hA.append (List.Sublist.refl [p])
    · rw [wfilter_append, ← hB1]
    · rw [hg, hBeq, greedyDedup_cons, List.append_assoc, List.singleton_append]
  · -- the i-th onset was itself discarded earlier: nothing happens
    have hBeq : B = B1 := by
      rw [hB, hdropi, List.filter_cons, if_neg (by simp [hs])]
    have hnotB : p.1 ∉ B.map Prod.fst := by
      rw [hBeq]
      intro hc
      obtain ⟨q, hq, hfst⟩ := List.mem_map.mp hc
      have hqP : q ∈ P.drop (i + 1) := hB1drop.subset hq
      exact absurd hfst.symm (ne_of_lt (hdrop_gt q hqP))
    have hmem' : (P.map Prod.fst).getD i 0 ∉ (A ++ B).map Prod.fst := by
      rw [hsi, List.map_append]
      intro hc
      rcases List.mem_append.mp hc with h | h
      · exact hnotA h
      · exact hnotB h
    refine ⟨A, B, ?_, ?_, ?_, hg⟩
    · simp only [WriteMidi.dedupStep]
      rw [if_neg fun hcon => hmem' hcon.1]
    · rw [htake_succ]
      exact hA.trans (List.sublist_append_left _ _)
    · rw [hBeq, hB1]

theorem dedup_fold_invariant (threshold : ℚ) (P : List (ℚ × ℚ))
    (hP : P.Pairwise fun p q => p.1 < q.1 ∧ p.2 < q.2) :
    ∀ k, k + 1 ≤ P.length →
      ∃ A B,
        (List.range k).foldl (WriteMidi.dedupStep threshold (P.map Prod.fst))
            (P.map Prod.fst, P.map Prod.snd)
          = ((A ++ B).map Prod.fst, (A ++ B).map Prod.snd) ∧
        A.Sublist (P.take k) ∧
        B = (P.drop k).filter (WriteMidi.survivesBool threshold A) ∧
        WriteMidi.greedyDedup threshold P = A ++ WriteMidi.greedyDedup threshold B := by
  intro k
  induction k with
  | zero =>
    intro _
    refine ⟨[], P, by simp, by simp, ?_, by simp⟩
    rw [List.drop_zero]
    exact (List.filter_eq_self.mpr fun a _ => rfl).symm
  | succ k ih =>
    intro hk1
    obtain ⟨A, B, heq, hA, hB, hg⟩ := ih (by omega)
    rw [List.range_succ, List.foldl_append, List.foldl_cons, List.foldl_nil, heq]
    exact dedup_invariant_step threshold P hP k (by omega) A B hA hB hg

/-- C1 amended.  The scan applies the suppression window only from onsets
that themselves survive: assuming the per-pitch onset and offset lists form
strictly increasing matched pairs (as the diff-based detection yields for
binarized rolls), the de-duplication loop of set_piano_roll_to_instrument
computes exactly the greedy survivor-anchored dedup in which each surviving
onset at time s discards exactly those later pairs whose start is strictly
below s + threshold and whose end is at most s + threshold. -/
theorem c1_amended (threshold : ℚ) (P : List (ℚ × ℚ))
    (hP : P.Pairwise fun p q => p.1 < q.1 ∧ p.2 < q.2) :
    WriteMidi.dedup threshold (P.map Prod.fst) (P.map Prod.snd)
      = ((WriteMidi.greedyDedup threshold P).map Prod.fst,
         (WriteMidi.greedyDedup threshold P).map Prod.snd) := by
  rcases Nat.eq_zero_or_pos P.length with hn | hn
  · have hnil : P = [] := List.length_eq_zero.mp hn
    subst hnil
    rfl
  · obtain ⟨A, B, heq, hA, hB, hg⟩ :=
      dedup_fold_invariant threshold P hP (P.length - 1) (by omega)
    rw [WriteMidi.dedup, List.length_map]
    rw [show P.length = (P.length - 1) + 1 by omega, List.range_succ,
      List.foldl_append, List.foldl_cons, List.foldl_nil, heq]
    have hstep : WriteMidi.dedupStep threshold (P.map Prod.fst)
        ((A ++ B).map Prod.fst, (A ++ B).map Prod.snd) (P.length - 1)
        = ((A ++ B).map Prod.fst, (A ++ B).map Prod.snd) := by
      simp only [WriteMidi.dedupStep]
      rw [if_neg]
      intro hcon
      exact hcon.2 (by rw [List.length_map])
    rw [hstep]
    have hBlen : B.length ≤ 1 := by
      rw [hB]
      calc (List.filter _ (P.drop (P.length - 1))).length
          ≤ (P.drop (P.length - 1)).length := List.length_filter_le _ _
        _ ≤ 1 := by rw [List.length_drop]; omega
    rw [hg, greedyDedup_short threshold B hBlen]

/-- C1 witness: the amended theorem applied to the three detected pairs of
the counterexample roll, where the code keeps the pair starting at 5/32. -/
theorem c1_amended_witness :
    ([((0 : ℚ), (1 : ℚ)/32), (2/32, 3/32), (5/32, 6/32)].Pairwise
        fun p q => p.1 < q.1 ∧ p.2 < q.2) ∧
    WriteMidi.dedup (60/120/4)
        ([((0 : ℚ), (1 : ℚ)/32), (2/32, 3/32), (5/32, 6/32)].map Prod.fst)
        ([((0 : ℚ), (1 : ℚ)/32), (2/32, 3/32), (5/32, 6/32)].map Prod.snd)
      = ((WriteMidi.greedyDedup (60/120/4)
            [((0 : ℚ), (1 : ℚ)/32), (2/32, 3/32), (5/32, 6/32)]).map Prod.fst,
         (WriteMidi.greedyDedup (60/120/4)
            [((0 : ℚ), (1 : ℚ)/32), (2/32, 3/32), (5/32, 6/32)]).map Prod.snd) :=
  ⟨by with_unfolding_all decide,
   c1_amended (60/120/4) [((0 : ℚ), (1 : ℚ)/32), (2/32, 3/32), (5/32, 6/32)]
     (by with_unfolding_all decide)⟩

/-! ## Claim about the note-event invariant (C2) -/

theorem mem_foldl_append {α : Type} (f : ℕ → List α) :
    ∀ (l : List ℕ) (acc : List α) (x : α), (x ∈ acc ∨ ∃ i ∈ l, x ∈ f i) →
      x ∈ l.foldl (fun acc i => acc ++ f i) acc := by
  intro l
  induction l with
  | nil =>
    intro acc x hx
    rcases hx with h | ⟨i, hi, _⟩
    · exact h
    · simp at hi
  | cons a l ih =>
    intro acc x hx
    apply ih
    rcases hx with h | ⟨i, hi, hfi⟩
    · exact Or.inl (List.mem_append.mpr (Or.inl h))
    · rcases List.mem_cons.mp hi with rfl | hi'
      · exact Or.inl (List.mem_append.mpr (Or.inr hfi))
      · exact Or.inr ⟨i, hi', hfi⟩

theorem set_piano_roll_to_instrument_mem (piano_roll : List (List (List ℚ)))
    (velocity : ℤ) (tempo beat_resolution : ℚ) (p : ℕ) (hp : p < 128)
    (x : WriteMidi.Note)
    (hx : x ∈ WriteMidi.notesForPitch (WriteMidi.scaledRoll piano_roll)
        (60 / tempo / beat_resolution) (60 / tempo / 4)
        (60 / tempo * 4 * (piano_roll.length : ℚ)) p) :
    x ∈ WriteMidi.set_piano_roll_to_instrument piano_roll velocity tempo
        beat_resolution := by
  unfold WriteMidi.set_piano_roll_to_instrument
  rw [List.Perm.mem_iff (stableSort_perm _ _)]
  exact mem_foldl_append _ (List.range 128) [] x
    (Or.inr ⟨p, List.mem_range.mpr hp, hx⟩)

theorem save_midis_c2Bars_eq :
    WriteMidi.save_midis WriteMidi.c2Bars [0] 80
      = some [(0, false,
          WriteMidi.set_piano_roll_to_instrument WriteMidi.c2Channel 100 80 4)] := by
  have htracks : (((WriteMidi.c2Bars.headD []).headD []).headD []).length = 1 := by
    with_unfolding_all decide
  simp only [WriteMidi.save_midis, htracks]
  rw [show List.range 1 = [0] from rfl]
  simp only [List.map_cons, List.map_nil]
  rw [WriteMidi.write_piano_rolls_to_midi]
  rw [if_neg (by simp)]
  simp only [List.length_cons, List.length_nil, List.isEmpty_cons]
  rw [show List.range 1 = [0] from rfl]
  simp only [List.map_cons, List.map_nil, List.getD_cons_zero]
  rfl

/-- C2 fails on the code.  Via save_midis (beat_resolution 4, tempo 80, one
64-step segment), phrase_end_time = 60/80*4*1 = 3 covers only a quarter of
the segment's 12 seconds.  The mismatched-velocity column at MIDI pitch 44
(values 100, 60, 30, 80 at steps 20..23) produces a zip-paired note with
negative detected duration starting at 69/16 = 4.3125 s; the short-note
branch clips its end to phrase_end_time = 3 < 69/16, so a Note with
end_time < start_time is appended. -/
theorem c2_end_not_after_start :
    ∃ ns, WriteMidi.save_midis WriteMidi.c2Bars [0] 80 = some [(0, false, ns)] ∧
      ({ velocity := 80, pitch := 44, start := 69/16, stop := 3 } : WriteMidi.Note)
        ∈ ns ∧
      (3 : ℚ) < 69/16 := by
  refine ⟨WriteMidi.set_piano_roll_to_instrument WriteMidi.c2Channel 100 80 4,
    save_midis_c2Bars_eq, ?_, by norm_num⟩
  apply set_piano_roll_to_instrument_mem WriteMidi.c2Channel 100 80 4 44
    (by norm_num)
  with_unfolding_all decide
